import Mathlib

/-!
Verification of the merge-and-conflict-resolution engine of the bom_merge
repository, as implemented in the `MergedParts` page component
(`fronted/src/pages/MergedParts.tsx`): the grouping of merged part records by
`part_code`, field-level conflict detection (`checkForConflicts`, also inlined
in `fetchMergedParts`), the edit overlay (`handleCellChange`), commit of the
overlay (`handleSaveChanges` with the `updateParts` storage call), and the
id-based merge with name-based fallback (`fetchMergedParts`).

The TypeScript is embedded shallowly:
- a runtime field value (`string | number | null/undefined`) is `JVal`, with
  JavaScript numbers restricted to integers (every numeric example in the
  code and its data — levels, ids — is integral; float formatting is outside
  this model, and `1.0` is the same JavaScript number as `1`);
- `String(number)` is `strOfIntChars` (decimal rendering) and
  `parseInt(s, 10)` is `parseIntChars` (skip leading whitespace, optional
  sign, longest digit prefix, `none` for NaN);
- a JavaScript object used as a map is modelled as a lookup function or an
  association list with unique keys, whichever the statements need;
- the React state updates of the component are explicit state-passing over a
  `PageState` record, with the fallible `axios` calls passed in as `Except`
  values.
-/

namespace Bom

/-- A JavaScript runtime value as it occurs in part-record fields:
a string, a number (restricted to integers, see the header comment), or
`null`/`undefined` (both collapsed to `JVal.null`, which the code treats
identically: both are falsy and both stringify through the `|| 'default'`
idiom before ever being rendered). -/
inductive JVal where
  | str (s : String)
  | num (n : Int)
  | null
deriving DecidableEq, Repr

/-- JavaScript truthiness for the values of `JVal`: `null`/`undefined`, the
empty string and the number `0` are falsy. -/
def isTruthy : JVal → Bool
  | JVal.str s => !(s == "")
  | JVal.num n => !(n == 0)
  | JVal.null => false

/-- Decimal digit test on a character, by code point (`'0'` to `'9'`),
as used by `parseInt` when scanning its digit prefix. -/
def isDigitChar (c : Char) : Bool :=
  48 ≤ c.toNat && c.toNat ≤ 57

/-- The whitespace characters `parseInt` skips before the optional sign
(space, tab, line feed, carriage return, vertical tab, form feed). -/
def isJsWs (c : Char) : Bool :=
  c.toNat == 32 || c.toNat == 9 || c.toNat == 10 || c.toNat == 13 ||
  c.toNat == 11 || c.toNat == 12

/-- The numeric value of a run of decimal digit characters, most significant
first (the accumulator loop of a decimal scanner). -/
def digitsToNat (l : List Char) : Nat :=
  l.foldl (fun a c => a * 10 + (c.toNat - 48)) 0

/-- The longest digit prefix of `cs`, as a number; `none` when there is no
digit at all (the NaN outcome of `parseInt`). -/
def parseDigits (cs : List Char) : Option Nat :=
  if (cs.takeWhile isDigitChar).isEmpty then none
  else some (digitsToNat (cs.takeWhile isDigitChar))

/-- The sign-and-digits stage of `parseInt`, applied after leading whitespace
has been skipped: an optional single sign character, then the longest digit
prefix; `none` models the NaN result. -/
def parseIntSigned : List Char → Option Int
  | [] => none
  | c :: rest =>
    if c = '-' then
      match parseDigits rest with
      | none => none
      | some m => some (-(Int.ofNat m))
    else if c = '+' then
      match parseDigits rest with
      | none => none
      | some m => some (Int.ofNat m)
    else
      match parseDigits (c :: rest) with
      | none => none
      | some m => some (Int.ofNat m)

/-- JavaScript `parseInt(s, 10)` on the character list of `s`: skip leading
whitespace, read an optional sign, then the longest digit prefix; `none`
models the NaN result. -/
def parseIntChars (cs : List Char) : Option Int :=
  parseIntSigned (cs.dropWhile isJsWs)

/-- Decimal digits of a natural number, most significant first; the first
argument is fuel, always called with `n < fuel` (structural recursion keeps
the definition kernel-reducible for concrete inputs). -/
def natDigits : Nat → Nat → List Char
  | 0, _ => []
  | fuel + 1, n =>
    if n < 10 then [Nat.digitChar n]
    else natDigits fuel (n / 10) ++ [Nat.digitChar (n % 10)]

/-- The character list of JavaScript `String(n)` for a natural number. -/
def strOfNatChars (n : Nat) : List Char := natDigits (n + 1) n

/-- The character list of JavaScript `String(i)` for an integer: a minus sign
followed by the decimal digits when negative (`String(-0)` is `"0"`, which an
integer model gives for free). -/
def strOfIntChars (i : Int) : List Char :=
  if i < 0 then '-' :: strOfNatChars (-i).toNat else strOfNatChars i.toNat

theorem digitChar_props :
    ∀ d ∈ List.range 10,
      isDigitChar (Nat.digitChar d) = true ∧ (Nat.digitChar d).toNat - 48 = d ∧
      isJsWs (Nat.digitChar d) = false ∧ Nat.digitChar d ≠ '-' ∧
      Nat.digitChar d ≠ '+' := by decide

theorem digitsToNat_append_one (l : List Char) (c : Char) :
    digitsToNat (l ++ [c]) = digitsToNat l * 10 + (c.toNat - 48) := by
  simp [digitsToNat, List.foldl_append]

/-- Core correctness of the decimal renderer: with enough fuel the digit list
is nonempty, consists of digit characters only, and reads back to `n`. -/
theorem natDigits_spec (fuel : Nat) :
    ∀ n, n < fuel →
      natDigits fuel n ≠ [] ∧ (∀ c ∈ natDigits fuel n, isDigitChar c = true) ∧
      digitsToNat (natDigits fuel n) = n := by
  induction fuel with
  | zero => intro n h; omega
  | succ fuel ih =>
    intro n h
    by_cases h10 : n < 10
    · have hd := digitChar_props n (List.mem_range.mpr h10)
      refine ⟨by simp [natDigits, h10], ?_, ?_⟩
      · intro c hc
        simp only [natDigits, if_pos h10, List.mem_singleton] at hc
        exact hc ▸ hd.1
      · simp [natDigits, h10, digitsToNat, hd.2.1]
    · have hdiv : n / 10 < fuel := by
        have h1 : n / 10 < n := Nat.div_lt_self (by omega) (by omega)
        omega
      have ihd := ih (n / 10) hdiv
      have hmod := digitChar_props (n % 10) (List.mem_range.mpr (by omega))
      refine ⟨by simp [natDigits, h10], ?_, ?_⟩
      · intro c hc
        simp only [natDigits, if_neg h10, List.mem_append, List.mem_singleton] at hc
        rcases hc with hc | hc
        · exact ihd.2.1 c hc
        · exact hc ▸ hmod.1
      · rw [natDigits, if_neg h10, digitsToNat_append_one, ihd.2.2, hmod.2.1]
        omega

theorem strOfNatChars_ne_nil (n : Nat) : strOfNatChars n ≠ [] :=
  (natDigits_spec (n + 1) n (by omega)).1

theorem strOfNatChars_digits (n : Nat) :
    ∀ c ∈ strOfNatChars n, isDigitChar c = true :=
  (natDigits_spec (n + 1) n (by omega)).2.1

theorem digitsToNat_strOfNatChars (n : Nat) :
    digitsToNat (strOfNatChars n) = n :=
  (natDigits_spec (n + 1) n (by omega)).2.2

theorem takeWhile_eq_self_of_all {p : Char → Bool} :
    ∀ l : List Char, (∀ c ∈ l, p c = true) → l.takeWhile p = l := by
  intro l
  induction l with
  | nil => intro _; rfl
  | cons c cs ih =>
    intro h
    simp [List.takeWhile_cons, h c (List.mem_cons_self c cs),
      ih (fun d hd => h d (List.mem_cons_of_mem c hd))]

theorem parseDigits_strOfNatChars (n : Nat) :
    parseDigits (strOfNatChars n) = some n := by
  rw [parseDigits, takeWhile_eq_self_of_all _ (strOfNatChars_digits n)]
  rw [if_neg (by simp [List.isEmpty_iff, strOfNatChars_ne_nil n])]
  rw [digitsToNat_strOfNatChars]

theorem dropWhile_ws_strOfNatChars (n : Nat) :
    (strOfNatChars n).dropWhile isJsWs = strOfNatChars n := by
  rcases h : strOfNatChars n with _ | ⟨c, cs⟩
  · rfl
  · have hc : isDigitChar c = true := by
      have := strOfNatChars_digits n
      rw [h] at this
      exact this c (List.mem_cons_self c cs)
    have hw : isJsWs c = false := by
      simp only [isDigitChar, Bool.and_eq_true, decide_eq_true_eq] at hc
      simp only [isJsWs, Bool.or_eq_false_iff, beq_eq_false_iff_ne, ne_eq]
      omega
    simp [List.dropWhile_cons, hw]

theorem head_strOfNatChars_not_sign (n : Nat) (c : Char) (cs : List Char)
    (h : strOfNatChars n = c :: cs) : c ≠ '-' ∧ c ≠ '+' := by
  have hc : isDigitChar c = true := by
    have := strOfNatChars_digits n
    rw [h] at this
    exact this c (List.mem_cons_self c cs)
  simp only [isDigitChar, Bool.and_eq_true, decide_eq_true_eq] at hc
  constructor
  · intro he; subst he; revert hc; decide
  · intro he; subst he; revert hc; decide

/-- Round trip of the JavaScript number-to-string-to-number path used by the
component: `parseInt(String(i), 10)` recovers the integer `i`. This is what
justifies keying the edit overlay by the numeric record id even though
JavaScript object keys are strings. -/
theorem parseIntChars_strOfIntChars (i : Int) :
    parseIntChars (strOfIntChars i) = some i := by
  by_cases hneg : i < 0
  · have hnn : (0 : Int) ≤ -i := by omega
    rw [strOfIntChars, if_pos hneg, parseIntChars]
    have hws : isJsWs '-' = false := by decide
    rw [List.dropWhile_cons]
    simp only [hws, Bool.false_eq_true, if_false]
    rw [parseIntSigned, if_pos rfl, parseDigits_strOfNatChars]
    show some (-(Int.ofNat (-i).toNat)) = some i
    congr 1
    rw [Int.ofNat_eq_coe, Int.ofNat_toNat]
    omega
  · rw [strOfIntChars, if_neg hneg, parseIntChars, dropWhile_ws_strOfNatChars]
    rcases h : strOfNatChars i.toNat with _ | ⟨c, cs⟩
    · exact absurd h (strOfNatChars_ne_nil _)
    · have hsign := head_strOfNatChars_not_sign _ _ _ h
      rw [parseIntSigned, if_neg hsign.1, if_neg hsign.2, ← h,
        parseDigits_strOfNatChars]
      show some (Int.ofNat i.toNat) = some i
      congr 1
      rw [Int.ofNat_eq_coe, Int.ofNat_toNat]
      omega

/-- One part record (the `Part` interface of `types/index.ts`): the numeric
database id plus the fields the page reads and writes. All non-id fields are
runtime `JVal`s, since the rows coming back from the API may hold strings,
numbers or nulls regardless of the declared TypeScript types (the conflict
detector normalizes exactly for that reason). `upload_batch` and `created_at`
are carried for completeness; only the fields below `id` ever appear in the
claims. -/
structure Part where
  id : Int
  level : JVal
  part_code : JVal
  part_name : JVal
  spec : JVal
  version : JVal
  material : JVal
  unit_count_per_level : JVal
  unit_weight_kg : JVal
  total_weight_kg : JVal
  part_property : JVal
  drawing_size : JVal
  reference_number : JVal
  purchase_status : JVal
  process_route : JVal
  remark : JVal
  upload_batch : JVal
  project_name : JVal
  file_unique_id : JVal
  created_at : JVal
deriving DecidableEq, Repr

/-- The editable field names of a part record (`keyof Part` minus the numeric
`id`, which the page never passes to `handleCellChange`). -/
inductive Field where
  | level
  | part_code
  | part_name
  | spec
  | version
  | material
  | unit_count_per_level
  | unit_weight_kg
  | total_weight_kg
  | part_property
  | drawing_size
  | reference_number
  | purchase_status
  | process_route
  | remark
  | upload_batch
  | project_name
  | file_unique_id
  | created_at
deriving DecidableEq, Repr

/-- Dynamic field access `part[field]`. -/
def Part.get (p : Part) : Field → JVal
  | Field.level => p.level
  | Field.part_code => p.part_code
  | Field.part_name => p.part_name
  | Field.spec => p.spec
  | Field.version => p.version
  | Field.material => p.material
  | Field.unit_count_per_level => p.unit_count_per_level
  | Field.unit_weight_kg => p.unit_weight_kg
  | Field.total_weight_kg => p.total_weight_kg
  | Field.part_property => p.part_property
  | Field.drawing_size => p.drawing_size
  | Field.reference_number => p.reference_number
  | Field.purchase_status => p.purchase_status
  | Field.process_route => p.process_route
  | Field.remark => p.remark
  | Field.upload_batch => p.upload_batch
  | Field.project_name => p.project_name
  | Field.file_unique_id => p.file_unique_id
  | Field.created_at => p.created_at

/-- The `fieldsToCompare` array of `checkForConflicts`, in source order. -/
def fieldsToCompare : List Field :=
  [Field.level, Field.part_name, Field.spec, Field.version, Field.material,
   Field.unit_count_per_level, Field.unit_weight_kg, Field.total_weight_kg,
   Field.part_property, Field.drawing_size, Field.reference_number,
   Field.purchase_status, Field.process_route, Field.remark]

/-- The character list of `String(v)` for a truthy `v` (the only place the
code stringifies a raw value is behind a `||` default, so the `null` arm is
unreachable; it is still given its JavaScript value). -/
def jsToStringChars : JVal → List Char
  | JVal.str s => s.data
  | JVal.num n => strOfIntChars n
  | JVal.null => ['n', 'u', 'l', 'l']

/-- The argument `parseInt` receives for a level value:
`String(part.level || '0')` — the decimal rendering of the value, with every
falsy value (missing, null, empty string, the number 0) replaced by `'0'`. -/
def levelArgChars (v : JVal) : List Char :=
  if isTruthy v then jsToStringChars v else ['0']

/-- Normalization of a `level` value in `checkForConflicts`:
`String(parseInt(String(part.level || '0'), 10))`. A value that parses to no
integer normalizes to the string `"NaN"` (JavaScript `String(NaN)`). -/
def levelNorm (v : JVal) : String :=
  match parseIntChars (levelArgChars v) with
  | some n => String.mk (strOfIntChars n)
  | none => "NaN"

/-- Normalization of every non-`level` compared field:
`typeof v === 'number' ? String(v) : String(v || '')` — numbers are
stringified (including `0`), strings pass through, null/undefined become the
empty string. -/
def stdNorm : JVal → String
  | JVal.str s => s
  | JVal.num n => String.mk (strOfIntChars n)
  | JVal.null => ""

/-- The normalized comparison value of field `f` on record `p`, exactly as
pushed into the `uniqueValues` set by `checkForConflicts`. -/
def normField (f : Field) (p : Part) : String :=
  if f = Field.level then levelNorm (p.get f) else stdNorm (p.get f)

/-- The string under which a truthy `part_code` is used as an object key in
`partCodeMap[part.part_code]` (JavaScript coerces object keys to strings). -/
def jsKey (v : JVal) : String := String.mk (jsToStringChars v)

/-- The group `partCodeMap[code]`: the records of `partsData` whose
`part_code` is truthy and coerces to the key `code`, in input order
(`partsData.forEach` pushes in order). A record with a missing, null or
empty-string `part_code` fails the `if (part.part_code)` guard and lands in
no group. -/
def groupOf (parts : List Part) (code : String) : List Part :=
  parts.filter (fun p => isTruthy p.part_code && (jsKey p.part_code == code))

/-- The number of distinct normalized values of field `f` over a group: the
size of the `uniqueValues : Set<string>` built by `checkForConflicts`. -/
def uniqueValuesCount (f : Field) (g : List Part) : Nat :=
  ((g.map (fun p => normField f p)).dedup).length

/-- The `conflictFields` array computed for one group, for a given field
list: the fields (in list order) whose `uniqueValues` set has more than one
member. -/
def conflictFieldsOver (fields : List Field) (g : List Part) : List Field :=
  fields.filter (fun f => decide (1 < uniqueValuesCount f g))

/-- The `conflictFields` array of `checkForConflicts`: `conflictFieldsOver`
at the fixed `fieldsToCompare` list. -/
def conflictFields (g : List Part) : List Field :=
  conflictFieldsOver fieldsToCompare g

/-- The `ConflictInfo` record stored in the conflict map. -/
structure ConflictInfo where
  partCode : String
  conflictFields : List Field
deriving DecidableEq, Repr

/-- `checkForConflicts` (also inlined verbatim in `fetchMergedParts`),
denoted as the key-to-value map of the `conflicts` object it builds: for a
key `code`, there is an entry exactly when the group for `code` has more
than one record and a nonempty `conflictFields` list. -/
def checkForConflicts (parts : List Part) (code : String) : Option ConflictInfo :=
  if 1 < (groupOf parts code).length then
    if (conflictFields (groupOf parts code)).isEmpty then none
    else some ⟨code, conflictFields (groupOf parts code)⟩
  else none

/-- The claim C1 normalization, written from the spec text: null/undefined
normalize to the empty string, numbers are stringified, and `level` is
coerced to an integer before comparison (spec §4.3 items 3–4). -/
def specNormValue (f : Field) (v : JVal) : String :=
  if f = Field.level then levelNorm v
  else
    match v with
    | JVal.str s => s
    | JVal.num n => String.mk (strOfIntChars n)
    | JVal.null => ""

/-- The conflict-field list of a group as the spec words it: a field
conflicts when the set of distinct normalized values across the group has
more than one member (here: the cardinality of the finite set of values). -/
def specConflictFieldsFor (g : List Part) : List Field :=
  fieldsToCompare.filter
    (fun f => decide (1 < ((g.map (fun p => specNormValue f (p.get f))).toFinset.card)))

/-- The conflict map as the spec words it: an entry for a part code exactly
when its group has 2 or more members and at least one conflicting field,
holding the list of conflicting field names. -/
def specConflictMap (parts : List Part) (code : String) : Option (List Field) :=
  if 2 ≤ (groupOf parts code).length ∧ specConflictFieldsFor (groupOf parts code) ≠ [] then
    some (specConflictFieldsFor (groupOf parts code))
  else none

/-- The pending changes recorded for one record: the
`Partial<Part>` object `editedParts[partId]`, as an association list with
unique field keys in insertion order (a JavaScript object cannot repeat a
key). -/
abbrev Edits := List (Bom.Field × JVal)

/-- Object lookup `changes[field]` (`none` models `undefined`). -/
def lookupEdit : Edits → Bom.Field → Option JVal
  | [], _ => none
  | fv :: rest, f => if fv.1 = f then some fv.2 else lookupEdit rest f

/-- The object spread `{...(prev[partId] || {}), [field]: value}` on an
association list with unique keys: replace the binding of `f` in place, or
append it. -/
def setEdit (f : Bom.Field) (v : JVal) : Edits → Edits
  | [] => [(f, v)]
  | fv :: rest => if fv.1 = f then (f, v) :: rest else fv :: setEdit f v rest

/-- The whole edit overlay, the `editedParts` state object: record id to
pending changes. JavaScript stores the numeric id keys as their decimal
strings; the round trip `parseInt(String(id)) = id`
(`parseIntChars_strOfIntChars`) makes integer keys a faithful model. -/
abbrev Overlay := List (Int × Edits)

/-- Object lookup `editedParts[partId]`. -/
def findEdits : Overlay → Int → Option Edits
  | [], _ => none
  | e :: rest, pid => if e.1 = pid then some e.2 else findEdits rest pid

/-- `handleCellChange(partId, field, value)`:
`setEditedParts(prev => ({...prev, [partId]: {...(prev[partId] || {}), [field]: value}}))`
— update the (unique) binding of `partId` in place, or append a fresh one.
There is no guard of any kind on `field`. -/
def handleCellChange (pid : Int) (f : Bom.Field) (v : JVal) : Overlay → Overlay
  | [] => [(pid, setEdit f v [])]
  | e :: rest =>
    if e.1 = pid then (pid, setEdit f v e.2) :: rest
    else e :: handleCellChange pid f v rest

/-- The object spread `{...part, ...changes}`: every field bound in
`changes` replaces the record's field, every other field is kept; the `id`
is untouched (the overlay never binds it, see `Field`). -/
def applyChanges (p : Part) (es : Edits) : Part :=
  { id := p.id
    level := (lookupEdit es Bom.Field.level).getD p.level
    part_code := (lookupEdit es Bom.Field.part_code).getD p.part_code
    part_name := (lookupEdit es Bom.Field.part_name).getD p.part_name
    spec := (lookupEdit es Bom.Field.spec).getD p.spec
    version := (lookupEdit es Bom.Field.version).getD p.version
    material := (lookupEdit es Bom.Field.material).getD p.material
    unit_count_per_level :=
      (lookupEdit es Bom.Field.unit_count_per_level).getD p.unit_count_per_level
    unit_weight_kg := (lookupEdit es Bom.Field.unit_weight_kg).getD p.unit_weight_kg
    total_weight_kg := (lookupEdit es Bom.Field.total_weight_kg).getD p.total_weight_kg
    part_property := (lookupEdit es Bom.Field.part_property).getD p.part_property
    drawing_size := (lookupEdit es Bom.Field.drawing_size).getD p.drawing_size
    reference_number :=
      (lookupEdit es Bom.Field.reference_number).getD p.reference_number
    purchase_status := (lookupEdit es Bom.Field.purchase_status).getD p.purchase_status
    process_route := (lookupEdit es Bom.Field.process_route).getD p.process_route
    remark := (lookupEdit es Bom.Field.remark).getD p.remark
    upload_batch := (lookupEdit es Bom.Field.upload_batch).getD p.upload_batch
    project_name := (lookupEdit es Bom.Field.project_name).getD p.project_name
    file_unique_id := (lookupEdit es Bom.Field.file_unique_id).getD p.file_unique_id
    created_at := (lookupEdit es Bom.Field.created_at).getD p.created_at }

/-- One record of the post-edit list:
`const changes = editedParts[part.id]; changes ? {...part, ...changes} : part`
(an empty changes object is truthy in JavaScript and spreads to a no-op, so
`some []` and the truthy branch agree). -/
def applyRecord (ov : Overlay) (p : Part) : Part :=
  match findEdits ov p.id with
  | some es => applyChanges p es
  | none => p

/-- The `parts.map(...)` rebuild run by `handleSaveChanges` (both for
`setParts` and for the `checkForConflicts` re-run). -/
def applyOverlay (ov : Overlay) (parts : List Part) : List Part :=
  parts.map (applyRecord ov)

/-- One element of the `partsToUpdate` array sent to the `updateParts`
storage API: `{id: parseInt(partId), ...changes}`. -/
structure UpdateObj where
  id : Option Int
  changes : Edits
deriving DecidableEq, Repr

/-- The `partsToUpdate` array: one update object per edited record id,
carrying the parsed id and exactly the pending changes of that id. -/
def partsToUpdate (ov : Overlay) : List UpdateObj :=
  ov.map (fun e => ⟨parseIntChars (strOfIntChars e.1), e.2⟩)

/-- The success/error banner `saveMessage` (`{type, text}`; `isSuccess`
stands for `type === 'success'`). -/
structure SaveMessage where
  isSuccess : Bool
  text : String
deriving DecidableEq, Repr

/-- The React state of the `MergedParts` page that the claims concern:
the displayed working set, the edit overlay, the conflict map, the fetch
error banner and the save banner (loading flags are orthogonal and
omitted). -/
structure PageState where
  parts : List Part
  editedParts : Overlay
  conflictParts : String → Option ConflictInfo
  error : Option String
  saveMessage : Option SaveMessage

/-- The id-based merge with name-based fallback in `fetchMergedParts`:
`try { mergePartsByFileIds(ids) } catch { mergeParts(names) }`. An id-based
failure is caught (and only logged); the result — or the error — of the
name-based merge is what the surrounding code then sees. -/
def mergeWithFallback (byIds byNames : Except String (List Part)) :
    Except String (List Part) :=
  match byIds with
  | Except.ok ps => Except.ok ps
  | Except.error _ => byNames

/-- The merge-and-detect stage of the `fetchMergedParts` effect, with the two
axios calls passed in as `Except` values: on success, show the merged list,
recompute the conflict map over it (the effect inlines the same algorithm as
`checkForConflicts`) and clear the error; on failure, the outer catch runs
`setError(...)` and `setParts([])` — the conflict map is left as it was. -/
def fetchMergedParts (byIds byNames : Except String (List Part))
    (s : PageState) : PageState :=
  match mergeWithFallback byIds byNames with
  | Except.ok merged =>
    { s with
      parts := merged
      conflictParts := checkForConflicts merged
      error := none }
  | Except.error _ =>
    { s with
      parts := []
      error := some ("获取合并零部件失败，请稍后重试") }

/-- `handleSaveChanges`, with the `updateParts` call passed in as an
`Except` carrying the reported `updated_count`. The returned pair is the new
page state together with the `partsToUpdate` array that was sent to storage
(sent before the outcome is known, hence in both branches). On success the
overlay is applied to the displayed set, the overlay is cleared and the
conflict detector is re-run over the full rebuilt set; on failure only the
error banner changes. -/
def handleSaveChanges (updateResult : Except String Nat) (s : PageState) :
    PageState × List UpdateObj :=
  match updateResult with
  | Except.ok n =>
    ({ s with
       parts := applyOverlay s.editedParts s.parts
       editedParts := []
       conflictParts := checkForConflicts (applyOverlay s.editedParts s.parts)
       saveMessage :=
         some ⟨true, "成功更新 " ++ String.mk (strOfNatChars n) ++ " 个零部件"⟩ },
     partsToUpdate s.editedParts)
  | Except.error _ =>
    ({ s with saveMessage := some ⟨false, "保存更改失败，请稍后重试"⟩ },
     partsToUpdate s.editedParts)

theorem normField_eq_specNormValue (f : Bom.Field) (p : Part) :
    specNormValue f (p.get f) = normField f p := by
  unfold specNormValue normField stdNorm
  by_cases hf : f = Bom.Field.level
  · simp [hf]
  · simp only [hf, if_false]

theorem specConflictFields_eq (g : List Part) :
    specConflictFieldsFor g = conflictFields g := by
  unfold specConflictFieldsFor conflictFields conflictFieldsOver
  apply List.filter_congr
  intro f _
  have hn : ((g.map (fun p => specNormValue f (p.get f))).toFinset.card) =
      uniqueValuesCount f g := by
    rw [List.card_toFinset]
    unfold uniqueValuesCount
    have he : (fun p => specNormValue f (p.get f)) = fun p => normField f p :=
      funext (fun p => normField_eq_specNormValue f p)
    rw [he]
  rw [hn]

/-- Claim C1: conflict detection groups records by part code and, for each
group of two or more records, reports exactly the fields of the fixed
comparison list whose set of distinct normalized values has more than one
member; a part code whose group has no conflicting field (or fewer than two
records) has no entry. Stated as: the code's `checkForConflicts` agrees with
the map written from the spec's wording. -/
theorem checkForConflicts_eq_spec (parts : List Part) (code : String) :
    checkForConflicts parts code =
      (specConflictMap parts code).map (fun fs => ConflictInfo.mk code fs) := by
  have h12 : (2 ≤ (groupOf parts code).length) = (1 < (groupOf parts code).length) :=
    rfl
  by_cases h1 : 1 < (groupOf parts code).length
  all_goals by_cases h2 : conflictFields (groupOf parts code) = []
  all_goals
    simp [checkForConflicts, specConflictMap, specConflictFields_eq, h12, h1, h2,
      List.isEmpty_iff]

theorem dedup_eq_of_all_eq {α : Type} [DecidableEq α] :
    ∀ (l : List α) (x : α), (∀ a ∈ l, a = x) → l.dedup = [] ∨ l.dedup = [x] := by
  intro l x
  induction l with
  | nil => intro _; exact Or.inl rfl
  | cons a as ih =>
    intro h
    have ha : a = x := h a (List.mem_cons_self a as)
    have hrest := ih (fun b hb => h b (List.mem_cons_of_mem a hb))
    by_cases hmem : a ∈ as
    · rw [List.dedup_cons_of_mem hmem]
      exact hrest
    · rw [List.dedup_cons_of_not_mem hmem]
      rcases hrest with hr | hr
      · rw [hr, ha]
        exact Or.inr rfl
      · exfalso
        have hx : x ∈ as := List.mem_dedup.mp (hr ▸ List.mem_singleton_self x)
        exact hmem (ha ▸ hx)

theorem uniqueValuesCount_le_one {f : Bom.Field} {g : List Part} {x : String}
    (h : ∀ p ∈ g, normField f p = x) : uniqueValuesCount f g ≤ 1 := by
  unfold uniqueValuesCount
  have hall : ∀ s ∈ g.map (fun p => normField f p), s = x := by
    intro s hs
    rcases List.mem_map.mp hs with ⟨p, hp, rfl⟩
    exact h p hp
  rcases dedup_eq_of_all_eq _ x hall with hd | hd <;> simp [hd]

theorem level_not_conflict_of_all_eq {g : List Part} {x : String}
    (h : ∀ p ∈ g, levelNorm p.level = x) :
    Bom.Field.level ∉ conflictFields g := by
  intro hmem
  unfold conflictFields conflictFieldsOver at hmem
  rw [List.mem_filter] at hmem
  have hgt := of_decide_eq_true hmem.2
  have hle : uniqueValuesCount Bom.Field.level g ≤ 1 := by
    apply uniqueValuesCount_le_one (x := x)
    intro p hp
    rw [normField, if_pos rfl]
    exact h p hp
  omega

/-- Claim C2: in a group of records sharing a part code, level values whose
textual/numeric representations coerce to the same integer (for example the
string "2" and the number 2) never make `level` a conflict field. -/
theorem level_representation_not_conflict (parts : List Part) (code : String)
    (n : Int)
    (h : ∀ p ∈ groupOf parts code, parseIntChars (levelArgChars p.level) = some n) :
    Bom.Field.level ∉ conflictFields (groupOf parts code) := by
  apply level_not_conflict_of_all_eq (x := String.mk (strOfIntChars n))
  intro p hp
  rw [levelNorm, h p hp]

/-- A part record with every field null, filled in per test case below. -/
def blankPart : Part :=
  { id := 0, level := JVal.null, part_code := JVal.null, part_name := JVal.null,
    spec := JVal.null, version := JVal.null, material := JVal.null,
    unit_count_per_level := JVal.null, unit_weight_kg := JVal.null,
    total_weight_kg := JVal.null, part_property := JVal.null,
    drawing_size := JVal.null, reference_number := JVal.null,
    purchase_status := JVal.null, process_route := JVal.null,
    remark := JVal.null, upload_batch := JVal.null, project_name := JVal.null,
    file_unique_id := JVal.null, created_at := JVal.null }

/-- Two records sharing part code PM whose levels are the string "2" and the
number 2. -/
def pM1 : Part :=
  { blankPart with id := 5, part_code := JVal.str ("PM"), level := JVal.str ("2") }

def pM2 : Part :=
  { blankPart with id := 6, part_code := JVal.str ("PM"), level := JVal.num 2 }

theorem level_representation_not_conflict_witness :
    Bom.Field.level ∉ conflictFields (groupOf [pM1, pM2] ("PM")) :=
  level_representation_not_conflict [pM1, pM2] ("PM") 2 (by decide)

/-- Two records whose part code is the whitespace-only string " " and whose
specs disagree. -/
def pBlank1 : Part :=
  { blankPart with id := 1, part_code := JVal.str (" "), spec := JVal.str ("X") }

def pBlank2 : Part :=
  { blankPart with id := 2, part_code := JVal.str (" "), spec := JVal.str ("Y") }

/-- Counterexample to claim C3: a whitespace-only part code is truthy in
JavaScript, so `if (part.part_code)` does NOT exclude it — two records with
part code " " are grouped, compared, and produce a conflict entry under the
key " ". -/
theorem blank_code_grouped_counterexample :
    checkForConflicts [pBlank1, pBlank2] (" ") =
      some ⟨" ", [Bom.Field.spec]⟩ := by decide

theorem strOfIntChars_ne_nil (i : Int) : strOfIntChars i ≠ [] := by
  unfold strOfIntChars
  by_cases h : i < 0
  · simp [h]
  · simp [h, strOfNatChars_ne_nil]

/-- Claim C3 as amended: a record whose `part_code` is missing, null or the
EMPTY string fails the `if (part.part_code)` guard, so removing all
falsy-coded records changes no conflict entry (they are never compared and
never produce one, and a missing code is no error); and the key of the empty
string never has an entry. Whitespace-only codes, however, are truthy and
are grouped like any other code (see the counterexample). -/
theorem falsy_code_excluded (parts : List Part) (code : String) :
    checkForConflicts parts code =
      checkForConflicts (parts.filter (fun p => isTruthy p.part_code)) code ∧
    checkForConflicts parts ("") = none := by
  constructor
  · have hg : groupOf (parts.filter (fun p => isTruthy p.part_code)) code =
        groupOf parts code := by
      unfold groupOf
      rw [List.filter_filter]
      apply List.filter_congr
      intro p _
      cases h : isTruthy p.part_code <;> simp [h]
    unfold checkForConflicts
    rw [hg]
  · have hempty : groupOf parts ("") = [] := by
      unfold groupOf
      rw [List.filter_eq_nil_iff]
      intro p _
      cases hpc : p.part_code with
      | null => simp [isTruthy]
      | str s =>
        by_cases hs : s = ""
        · simp [isTruthy, hs]
        · simp [isTruthy, hs, jsKey, jsToStringChars]
      | num m =>
        by_cases hm : m = 0
        · simp [isTruthy, hm]
        · simp [isTruthy, hm, jsKey, jsToStringChars]
          intro hk
          exact strOfIntChars_ne_nil m (congrArg String.data hk)
    unfold checkForConflicts
    rw [hempty]
    simp

/-- Counterexample to claim C4: when the id-based merge and the name-based
fallback both fail, the error that escapes to the outer catch (and is
surfaced) is the NAME-based one — the id-based error was already consumed by
the inner catch. -/
theorem fallback_error_counterexample :
    mergeWithFallback (Except.error ("id-merge-failed"))
        (Except.error ("name-merge-failed")) =
      Except.error ("name-merge-failed") ∧
    ("name-merge-failed" : String) ≠ "id-merge-failed" :=
  ⟨rfl, by decide⟩

/-- Claim C4 as amended: a failing id-based merge automatically falls back
to the name-based merge (a succeeding id-based merge never consults it); if
the name-based merge also fails, the error surfaced is the NAME-based
(second) error, not the original id-based one, and the page then displays
its generic fetch-failure message. -/
theorem fallback_surfaces_name_error (e1 e2 : String) (ps : List Part)
    (r : Except String (List Part)) (s : PageState) :
    mergeWithFallback (Except.ok ps) r = Except.ok ps ∧
    mergeWithFallback (Except.error e1) (Except.ok ps) = Except.ok ps ∧
    mergeWithFallback (Except.error e1) (Except.error e2) = Except.error e2 ∧
    (fetchMergedParts (Except.error e1) (Except.error e2) s).error =
      some ("获取合并零部件失败，请稍后重试") :=
  ⟨rfl, rfl, rfl, rfl⟩

/-- A record with part code P1 and spec X, and a page state displaying it. -/
def q1 : Part :=
  { blankPart with id := 1, part_code := JVal.str ("P1"), spec := JVal.str ("X") }

def q2 : Part :=
  { blankPart with id := 2, part_code := JVal.str ("P1"), spec := JVal.str ("Y") }

def sPrev : PageState :=
  { parts := [q1], editedParts := [], conflictParts := fun _ => none,
    error := none, saveMessage := none }

/-- Counterexample to claim C5: a failed merge does NOT leave the previously
displayed working set untouched — the outer catch of `fetchMergedParts` runs
`setParts([])`, removing every displayed record. -/
theorem merge_failure_clears_parts_counterexample :
    (fetchMergedParts (Except.error ("id failed")) (Except.error ("name failed"))
        sPrev).parts ≠ sPrev.parts := by decide

/-- Claim C5 as amended: a failed SAVE leaves the displayed working set, the
edit overlay, the conflict map and the fetch error untouched (only the save
banner changes); a failed MERGE does not preserve the display — it clears
the parts list to empty and sets the error banner, leaving only the stale
conflict map in place. -/
theorem failure_state_effects (msg e1 e2 : String) (s : PageState) :
    (handleSaveChanges (Except.error msg) s).1.parts = s.parts ∧
    (handleSaveChanges (Except.error msg) s).1.editedParts = s.editedParts ∧
    (handleSaveChanges (Except.error msg) s).1.conflictParts = s.conflictParts ∧
    (handleSaveChanges (Except.error msg) s).1.error = s.error ∧
    (fetchMergedParts (Except.error e1) (Except.error e2) s).parts = [] ∧
    (fetchMergedParts (Except.error e1) (Except.error e2) s).conflictParts =
      s.conflictParts :=
  ⟨rfl, rfl, rfl, rfl, rfl, rfl⟩

theorem get_applyChanges (p : Part) (es : Edits) (f : Bom.Field) :
    (applyChanges p es).get f = (lookupEdit es f).getD (p.get f) := by
  cases f <;> rfl

/-- Claim C6: a successful commit sends to storage exactly one update object
per edited record id (carrying the parsed id — which round-trips — and
exactly that record's pending edits, never an unedited record), clears the
overlay, rebuilds the displayed set by applying each record's edits by id
(unedited records unchanged, edited fields overridden), and recomputes the
conflict map with the detector over the full rebuilt set. -/
theorem save_changes_commit_spec (s : PageState) (n : Nat) :
    (handleSaveChanges (Except.ok n) s).2.length = s.editedParts.length ∧
    (∀ u ∈ (handleSaveChanges (Except.ok n) s).2,
      ∃ e ∈ s.editedParts, u.id = some e.1 ∧ u.changes = e.2) ∧
    (∀ e ∈ s.editedParts,
      UpdateObj.mk (some e.1) e.2 ∈ (handleSaveChanges (Except.ok n) s).2) ∧
    (handleSaveChanges (Except.ok n) s).1.editedParts = [] ∧
    (handleSaveChanges (Except.ok n) s).1.parts =
      applyOverlay s.editedParts s.parts ∧
    (∀ p ∈ s.parts, findEdits s.editedParts p.id = none →
      applyRecord s.editedParts p = p) ∧
    (∀ (p : Part) (es : Edits) (f : Bom.Field),
      findEdits s.editedParts p.id = some es →
      (applyRecord s.editedParts p).get f = (lookupEdit es f).getD (p.get f)) ∧
    (∀ code, (handleSaveChanges (Except.ok n) s).1.conflictParts code =
      checkForConflicts ((handleSaveChanges (Except.ok n) s).1.parts) code) := by
  refine ⟨?_, ?_, ?_, rfl, rfl, ?_, ?_, fun code => rfl⟩
  · simp [handleSaveChanges, partsToUpdate]
  · intro u hu
    simp only [handleSaveChanges, partsToUpdate, List.mem_map] at hu
    rcases hu with ⟨e, he, rfl⟩
    exact ⟨e, he, by rw [parseIntChars_strOfIntChars], rfl⟩
  · intro e he
    simp only [handleSaveChanges, partsToUpdate, List.mem_map]
    exact ⟨e, he, by rw [parseIntChars_strOfIntChars]⟩
  · intro p _ h
    simp [applyRecord, h]
  · intro p es f h
    unfold applyRecord
    rw [h]
    exact get_applyChanges p es f

/-- A page state with one displayed record (id 7, spec S1) and one pending
edit changing its spec to S2. -/
def pEdit : Part :=
  { blankPart with id := 7, part_code := JVal.str ("P7"), spec := JVal.str ("S1") }

def sEditing : PageState :=
  { parts := [pEdit],
    editedParts := [(7, [(Bom.Field.spec, JVal.str ("S2"))])],
    conflictParts := fun _ => none, error := none, saveMessage := none }

theorem save_changes_commit_witness :
    UpdateObj.mk (some 7) [(Bom.Field.spec, JVal.str ("S2"))] ∈
      (handleSaveChanges (Except.ok 1) sEditing).2 ∧
    (handleSaveChanges (Except.ok 1) sEditing).1.editedParts = [] := by
  have h := save_changes_commit_spec sEditing 1
  exact ⟨h.2.2.1 (7, [(Bom.Field.spec, JVal.str ("S2"))]) (by decide),
    h.2.2.2.1⟩

/-- A record whose identity would be altered if a pending part_code edit
were committed. -/
def pIdent : Part :=
  { blankPart with id := 1, part_code := JVal.str ("PC-OLD") }

/-- Counterexample to claim C7: `handleCellChange` has no guard on the field
name — called with the identity field `part_code` it DOES record a pending
change, and committing the overlay then overwrites the record's identity. -/
theorem identity_edit_counterexample :
    findEdits (handleCellChange 1 Bom.Field.part_code (JVal.str ("PC-NEW")) []) 1 =
      some [(Bom.Field.part_code, JVal.str ("PC-NEW"))] ∧
    (applyRecord (handleCellChange 1 Bom.Field.part_code (JVal.str ("PC-NEW")) [])
        pIdent).part_code = JVal.str ("PC-NEW") ∧
    pIdent.part_code ≠ JVal.str ("PC-NEW") :=
  ⟨by decide, by decide, by decide⟩

theorem lookupEdit_setEdit (f : Bom.Field) (v : JVal) :
    ∀ es : Edits, lookupEdit (setEdit f v es) f = some v := by
  intro es
  induction es with
  | nil => simp [setEdit, lookupEdit]
  | cons fv rest ih =>
    by_cases h : fv.1 = f
    · simp [setEdit, h, lookupEdit]
    · simp [setEdit, h, lookupEdit, ih]

/-- Claim C7 as amended: `handleCellChange` records a pending change for
EVERY field it is passed — identity fields (`part_code`, `project_name`,
`file_unique_id`) included — with last-write-wins semantics, and raises no
error; the only protection for identity fields is in the UI layer, which
renders the part-code cell without an editor and never calls
`handleCellChange` for it. -/
theorem cell_change_records_any_field (pid : Int) (f : Bom.Field) (v : JVal) :
    ∀ ov : Overlay, ∃ es, findEdits (handleCellChange pid f v ov) pid = some es ∧
      lookupEdit es f = some v := by
  intro ov
  induction ov with
  | nil =>
    exact ⟨setEdit f v [], by simp [handleCellChange, findEdits],
      lookupEdit_setEdit f v []⟩
  | cons e rest ih =>
    by_cases h : e.1 = pid
    · exact ⟨setEdit f v e.2, by simp [handleCellChange, h, findEdits],
        lookupEdit_setEdit f v e.2⟩
    · rcases ih with ⟨es, h1, h2⟩
      exact ⟨es, by simp [handleCellChange, h, findEdits, h1], h2⟩

/-- Claim C8: conflict detection is order-independent — permuting the input
record list leaves the conflict map unchanged (same entries, same field
lists), and permuting the compared-field list permutes (hence preserves as a
set) the conflict-field list of every group. -/
theorem conflict_detection_perm_invariant (parts parts2 : List Part)
    (code : String) (fs : List Bom.Field)
    (hp : parts.Perm parts2) (hf : fs.Perm fieldsToCompare) :
    checkForConflicts parts code = checkForConflicts parts2 code ∧
    (conflictFieldsOver fs (groupOf parts code)).Perm
      (conflictFields (groupOf parts code)) := by
  have hg : (groupOf parts code).Perm (groupOf parts2 code) := hp.filter _
  have hcount : ∀ f, uniqueValuesCount f (groupOf parts code) =
      uniqueValuesCount f (groupOf parts2 code) := by
    intro f
    exact ((hg.map _).dedup).length_eq
  have hcf : conflictFields (groupOf parts code) =
      conflictFields (groupOf parts2 code) := by
    unfold conflictFields conflictFieldsOver
    exact List.filter_congr (fun f _ => by rw [hcount f])
  constructor
  · unfold checkForConflicts
    rw [hg.length_eq, hcf]
  · unfold conflictFields
    exact hf.filter _

theorem conflict_detection_perm_invariant_witness :
    checkForConflicts [q1, q2] ("P1") = checkForConflicts [q2, q1] ("P1") ∧
    (conflictFieldsOver fieldsToCompare (groupOf [q1, q2] ("P1"))).Perm
      (conflictFields (groupOf [q1, q2] ("P1"))) :=
  conflict_detection_perm_invariant [q1, q2] [q2, q1] ("P1") fieldsToCompare
    (List.Perm.swap q2 q1 []) (List.Perm.refl fieldsToCompare)

theorem getD_getD {α : Type} (o : Option α) (a : α) :
    o.getD (o.getD a) = o.getD a := by
  cases o <;> rfl

theorem applyChanges_idem (p : Part) (es : Edits) :
    applyChanges (applyChanges p es) es = applyChanges p es := by
  simp only [applyChanges, getD_getD]

theorem applyRecord_idem (ov : Overlay) (p : Part) :
    applyRecord ov (applyRecord ov p) = applyRecord ov p := by
  cases h : findEdits ov p.id with
  | none => simp [applyRecord, h]
  | some es =>
    have hid : (applyChanges p es).id = p.id := rfl
    simp [applyRecord, h, hid, applyChanges_idem]

/-- Claim C9: applying the same edit overlay a second time changes no
record, so the conflict map after a repeated commit of identical edits
equals the conflict map after the first commit. -/
theorem apply_edits_idempotent (ov : Overlay) (parts : List Part) :
    applyOverlay ov (applyOverlay ov parts) = applyOverlay ov parts ∧
    ∀ code, checkForConflicts (applyOverlay ov (applyOverlay ov parts)) code =
      checkForConflicts (applyOverlay ov parts) code := by
  have h : applyOverlay ov (applyOverlay ov parts) = applyOverlay ov parts := by
    unfold applyOverlay
    rw [List.map_map]
    congr 1
    funext p
    exact applyRecord_idem ov p
  exact ⟨h, fun code => by rw [h]⟩

/-- Claim C10: in the level normalization
`parseInt(String(part.level || '0'), 10)`, a missing/null/empty level (or a
falsy numeric 0, or the string "0") coerces to 0, so such records never
conflict on level; and any level values that parse to no integer all
normalize to the string "NaN", so they never conflict on level either. -/
theorem level_coercion_zero_nan (parts : List Part) (code : String)
    (h : (∀ p ∈ groupOf parts code,
            p.level = JVal.null ∨ p.level = JVal.str ("") ∨
            p.level = JVal.str ("0") ∨ p.level = JVal.num 0) ∨
         (∀ p ∈ groupOf parts code,
            parseIntChars (levelArgChars p.level) = none)) :
    levelNorm JVal.null = "0" ∧ levelNorm (JVal.str ("")) = "0" ∧
    levelNorm (JVal.str ("0")) = "0" ∧ levelNorm (JVal.num 0) = "0" ∧
    Bom.Field.level ∉ conflictFields (groupOf parts code) := by
  refine ⟨by decide, by decide, by decide, by decide, ?_⟩
  rcases h with h | h
  · apply level_not_conflict_of_all_eq (x := "0")
    intro p hp
    rcases h p hp with h1 | h1 | h1 | h1 <;> rw [h1] <;> decide
  · apply level_not_conflict_of_all_eq (x := "NaN")
    intro p hp
    rw [levelNorm, h p hp]

/-- Two records sharing code P1, one with no level at all and one with the
string level "0". -/
def pL1 : Part :=
  { blankPart with id := 3, part_code := JVal.str ("PZ") }

def pL2 : Part :=
  { blankPart with id := 4, part_code := JVal.str ("PZ"), level := JVal.str ("0") }

theorem level_coercion_zero_nan_witness :
    levelNorm JVal.null = "0" ∧ levelNorm (JVal.str ("")) = "0" ∧
    levelNorm (JVal.str ("0")) = "0" ∧ levelNorm (JVal.num 0) = "0" ∧
    Bom.Field.level ∉ conflictFields (groupOf [pL1, pL2] ("PZ")) :=
  level_coercion_zero_nan [pL1, pL2] ("PZ") (Or.inl (by decide))

end Bom
